import Mathlib

/-!
Verification of the arithmetic-compiler front end in `compiler_simulator.py`:
lexical analysis, recursive-descent parsing, semantic tables and
three-address code generation.  Python strings are modelled as `List Char`,
Python `int` literals (always non-negative here, as they come from digit
runs) as `Nat`, raised exceptions as `Except` / `Option` error results, and
`str.isdigit` / `str.isspace` as `Char.isDigit` / `Char.isWhitespace`.
-/

set_option linter.unusedVariables false

/-- The token kinds produced by the lexer (`Token.tipo` takes exactly these
seven string values in the source). -/
inductive TokenTipo where
  | NUMBER | PLUS | MINUS | MUL | DIV | LPAREN | RPAREN
deriving DecidableEq, Repr

/-- The `Token` dataclass: kind, literal text and 0-based source offset. -/
structure Token where
  tipo : TokenTipo
  valor : List Char
  posicion : Nat
deriving DecidableEq, Repr

/-- The `Lexer._TIPOS` dictionary: the single-character operator tokens. -/
def tiposOperador (c : Char) : Option TokenTipo :=
  if c = '+' then some .PLUS
  else if c = '-' then some .MINUS
  else if c = '*' then some .MUL
  else if c = '/' then some .DIV
  else if c = '(' then some .LPAREN
  else if c = ')' then some .RPAREN
  else none

/-- `LexerError(position, character)`. -/
structure LexerError where
  posicion : Nat
  caracter : Char
deriving DecidableEq, Repr

/-- The scanning loop of `Lexer.tokenize`: `posicion` is the cursor.  A run
of digits becomes one NUMBER token (the inner `while` is the
`takeWhile`/`dropWhile` split), operator characters become single-character
tokens, whitespace is skipped, and any other character raises
`LexerError`. -/
def tokenizeAux : List Char → Nat → Except LexerError (List Token)
  | [], _ => .ok []
  | c :: resto, posicion =>
    if c.isDigit then
      let valor := c :: resto.takeWhile Char.isDigit
      match tokenizeAux (resto.dropWhile Char.isDigit) (posicion + valor.length) with
      | .error e => .error e
      | .ok ts => .ok (⟨.NUMBER, valor, posicion⟩ :: ts)
    else
      match tiposOperador c with
      | some tipo =>
        match tokenizeAux resto (posicion + 1) with
        | .error e => .error e
        | .ok ts => .ok (⟨tipo, [c], posicion⟩ :: ts)
      | none =>
        if c.isWhitespace then tokenizeAux resto (posicion + 1)
        else .error ⟨posicion, c⟩
termination_by l _ => l.length
decreasing_by
  all_goals first
    | exact Nat.lt_succ_of_le (List.dropWhile_sublist _).length_le
    | exact Nat.lt_succ_self _

/-- `Lexer.tokenize`: scan from offset 0. -/
def tokenize (expresion : List Char) : Except LexerError (List Token) :=
  tokenizeAux expresion 0

/-- The AST: `NumberNode(valor)` and `BinaryOpNode(operador, izquierdo,
derecho)`. -/
inductive ASTNode where
  | NumberNode (valor : Nat)
  | BinaryOpNode (operador : List Char) (izquierdo derecho : ASTNode)
deriving DecidableEq, Repr

/-- `int(token.valor)` on a digit string. -/
def intDeCadena (valor : List Char) : Nat :=
  valor.foldl (fun acc c => 10 * acc + (c.toNat - 48)) 0

/-- `ParserError(message, position)`.  `sinCombustible` is the out-of-fuel
marker of the embedding (never reached with the fuel supplied by `parse`),
and `indiceFueraDeRango` models a Python `IndexError` on
`self._tokens[self._indice - 1]` (unreachable: a `(` was consumed before). -/
inductive ParserError where
  | err (mensaje : String) (posicion : Option Nat)
  | sinCombustible
  | indiceFueraDeRango
deriving DecidableEq, Repr

mutual

/-- `Parser._parse_expresion`: a term followed by the `+`/`-` fold loop. -/
def parse_expresion : Nat → List Token → Nat → Except ParserError (ASTNode × Nat)
  | 0, _, _ => .error .sinCombustible
  | combustible + 1, tokens, indice =>
    match parse_termino combustible tokens indice with
    | .error e => .error e
    | .ok (nodo, indice') => exprBucle combustible tokens nodo indice'
termination_by structural combustible => combustible

/-- The `while self._coincide({"PLUS", "MINUS"})` loop of
`_parse_expresion`: each iteration wraps the accumulated node as the left
child of a new `BinaryOpNode` (left fold). -/
def exprBucle : Nat → List Token → ASTNode → Nat → Except ParserError (ASTNode × Nat)
  | 0, _, _, _ => .error .sinCombustible
  | combustible + 1, tokens, nodo, indice =>
    match tokens[indice]? with
    | some t =>
      if t.tipo = .PLUS ∨ t.tipo = .MINUS then
        match parse_termino combustible tokens (indice + 1) with
        | .error e => .error e
        | .ok (derecho, indice') =>
          exprBucle combustible tokens (.BinaryOpNode t.valor nodo derecho) indice'
      else .ok (nodo, indice)
    | none => .ok (nodo, indice)
termination_by structural combustible => combustible

/-- `Parser._parse_termino`: a factor followed by the `*`/`/` fold loop. -/
def parse_termino : Nat → List Token → Nat → Except ParserError (ASTNode × Nat)
  | 0, _, _ => .error .sinCombustible
  | combustible + 1, tokens, indice =>
    match parse_factor combustible tokens indice with
    | .error e => .error e
    | .ok (nodo, indice') => termBucle combustible tokens nodo indice'
termination_by structural combustible => combustible

/-- The `while self._coincide({"MUL", "DIV"})` loop of `_parse_termino`. -/
def termBucle : Nat → List Token → ASTNode → Nat → Except ParserError (ASTNode × Nat)
  | 0, _, _, _ => .error .sinCombustible
  | combustible + 1, tokens, nodo, indice =>
    match tokens[indice]? with
    | some t =>
      if t.tipo = .MUL ∨ t.tipo = .DIV then
        match parse_factor combustible tokens (indice + 1) with
        | .error e => .error e
        | .ok (derecho, indice') =>
          termBucle combustible tokens (.BinaryOpNode t.valor nodo derecho) indice'
      else .ok (nodo, indice)
    | none => .ok (nodo, indice)
termination_by structural combustible => combustible

/-- `Parser._parse_factor`: a NUMBER token, or a parenthesised expression.
On a missing `)` the reported position is the current token's position if
tokens remain, else one past the last consumed token's position.  Any other
situation is `Factor no válido` with the current token's position if one
exists. -/
def parse_factor : Nat → List Token → Nat → Except ParserError (ASTNode × Nat)
  | 0, _, _ => .error .sinCombustible
  | combustible + 1, tokens, indice =>
    match tokens[indice]? with
    | some t =>
      if t.tipo = .NUMBER then
        .ok (.NumberNode (intDeCadena t.valor), indice + 1)
      else if t.tipo = .LPAREN then
        match parse_expresion combustible tokens (indice + 1) with
        | .error e => .error e
        | .ok (nodo, indice') =>
          match tokens[indice']? with
          | some t' =>
            if t'.tipo = .RPAREN then .ok (nodo, indice' + 1)
            else .error (.err "Se esperaba ')'" (some t'.posicion))
          | none =>
            match tokens[indice' - 1]? with
            | some tprev => .error (.err "Se esperaba ')'" (some (tprev.posicion + 1)))
            | none => .error .indiceFueraDeRango
      else .error (.err "Factor no válido" (some t.posicion))
    | none => .error (.err "Factor no válido" none)
termination_by structural combustible => combustible

end

/-- `Parser.parse`: empty input is rejected, then one expression is parsed
and leftover tokens are rejected.  The fuel bound is generous: every parser
step that recurses either consumes a token first or moves at most three
levels down the grammar. -/
def parse (tokens : List Token) : Except ParserError ASTNode :=
  if tokens.isEmpty then .error (.err "La expresión está vacía" none)
  else
    match parse_expresion (4 * tokens.length + 4) tokens 0 with
    | .error e => .error e
    | .ok (nodo, indice) =>
      match tokens[indice]? with
      | some t => .error (.err "Token inesperado" (some t.posicion))
      | none => .ok nodo

/-- Fuel-bounded decimal rendering of a natural number (digits of `n`,
most significant first). -/
def natCharsAux : Nat → Nat → List Char
  | 0, _ => []
  | combustible + 1, n =>
    if n < 10 then [Nat.digitChar n]
    else natCharsAux combustible (n / 10) ++ [Nat.digitChar (n % 10)]

/-- Decimal rendering of a natural number, as Python's `str()` /
f-string interpolation produces for a non-negative `int`. -/
def natChars (n : Nat) : List Char :=
  natCharsAux (n + 1) n

/-- The synthetic address `f"dir_{n}"`. -/
def direccionDe (n : Nat) : List Char :=
  "dir_".toList ++ natChars n

/-- A symbol-table row `{"simbolo": ..., "direccion": ...}`. -/
structure EntradaSimbolo where
  simbolo : List Char
  direccion : List Char
deriving DecidableEq, Repr

/-- A type-table row `{"simbolo": ..., "tipo": ...}`. -/
structure EntradaTipo where
  simbolo : List Char
  tipo : List Char
deriving DecidableEq, Repr

/-- The body of `visitar` on a `NumberNode`: a value not yet in the
`simbolos` dictionary is appended with address `f"dir_{len(simbolos)+1}"`
and recorded in `orden`; a seen value changes nothing.  The dictionary is
an insertion-ordered association list, as a Python `dict` is. -/
def insertarValor (st : List (Nat × List Char) × List Nat) (valor : Nat) :
    List (Nat × List Char) × List Nat :=
  if (st.1.lookup valor).isSome then st
  else (st.1 ++ [(valor, direccionDe (st.1.length + 1))], st.2 ++ [valor])

/-- The recursive `visitar` of `construir_tablas_semanticas`: leaves are
recorded, binary nodes are descended into, left child first. -/
def visitar : ASTNode → List (Nat × List Char) × List Nat →
    List (Nat × List Char) × List Nat
  | .NumberNode valor, st => insertarValor st valor
  | .BinaryOpNode _ izquierdo derecho, st => visitar derecho (visitar izquierdo st)

/-- `construir_tablas_semanticas`: walk the AST, then build the symbol and
type tables from `orden` (Python's `simbolos[valor]` lookup is the
association-list lookup; the `getD` default is never used because every
value in `orden` is a key). -/
def construir_tablas_semanticas (nodo : ASTNode) :
    List EntradaSimbolo × List EntradaTipo × List (Nat × List Char) :=
  let st := visitar nodo ([], [])
  (st.2.map fun valor => ⟨natChars valor, (st.1.lookup valor).getD []⟩,
   st.2.map fun valor => ⟨natChars valor, "entero".toList⟩,
   st.1)

/-- The inner `generar` of `generar_codigo_tres_direcciones`, with the
`nonlocal temporal` counter and the append-only instruction list made
explicit: returns the instructions it emitted (in order), the reference of
the subtree's value, and the updated counter.  A missing dictionary key
(Python `KeyError`) is `none`. -/
def generarAux (direcciones : List (Nat × List Char)) :
    ASTNode → Nat → Option (List (List Char) × List Char × Nat)
  | .NumberNode valor, temporal =>
    match direcciones.lookup valor with
    | some d => some ([], d, temporal)
    | none => none
  | .BinaryOpNode operador izquierdo derecho, temporal =>
    match generarAux direcciones izquierdo temporal with
    | none => none
    | some (insIzq, refIzq, t1) =>
      match generarAux direcciones derecho t1 with
      | none => none
      | some (insDer, refDer, t2) =>
        some (insIzq ++ insDer ++
            [('t' :: natChars t2) ++ " = ".toList ++ refIzq ++ [' '] ++
              operador ++ [' '] ++ refDer],
          't' :: natChars t2, t2 + 1)

/-- `generar_codigo_tres_direcciones`: run the walk with the temporary
counter starting at 1; return the instruction list and the final
reference. -/
def generar_codigo_tres_direcciones (nodo : ASTNode)
    (direcciones : List (Nat × List Char)) :
    Option (List (List Char) × List Char) :=
  (generarAux direcciones nodo 1).map fun r => (r.1, r.2.1)

/-- The compilation error surfaced by `ArithmeticCompiler.compilar`:
either of the two exception types, or the (unreachable) `KeyError` from
code generation. -/
inductive ErrorCompilacion where
  | lexico (e : LexerError)
  | sintactico (e : ParserError)
  | claveInexistente
deriving DecidableEq, Repr

/-- The result dictionary returned by `ArithmeticCompiler.compilar`. -/
structure Resultado where
  tokens : List Token
  ast : ASTNode
  tabla_simbolos : List EntradaSimbolo
  tabla_tipos : List EntradaTipo
  codigo_tres_direcciones : List (List Char)
  resultado : List Char
deriving DecidableEq, Repr

/-- `ArithmeticCompiler.compilar`: the four phases in sequence, first
error propagated, all artifacts bundled on success. -/
def compilar (expresion : List Char) : Except ErrorCompilacion Resultado :=
  match tokenize expresion with
  | .error e => .error (.lexico e)
  | .ok tokens =>
    match parse tokens with
    | .error e => .error (.sintactico e)
    | .ok ast =>
      let tablas := construir_tablas_semanticas ast
      match generar_codigo_tres_direcciones ast tablas.2.2 with
      | none => .error .claveInexistente
      | some (codigo, referencia) =>
        .ok ⟨tokens, ast, tablas.1, tablas.2.1, codigo, referencia⟩

/-! Specification-side measures used to state the claims. -/

/-- The number of `BinaryOpNode`s in an AST. -/
def numBinaryOps : ASTNode → Nat
  | .NumberNode _ => 0
  | .BinaryOpNode _ izquierdo derecho => numBinaryOps izquierdo + numBinaryOps derecho + 1

/-- The leaf values of an AST in left-to-right reading order. -/
def hojas : ASTNode → List Nat
  | .NumberNode valor => [valor]
  | .BinaryOpNode _ izquierdo derecho => hojas izquierdo ++ hojas derecho

/-- First occurrences of a list's elements, in order, skipping the values
listed in `vistos`. -/
def primerasApariciones : List Nat → List Nat → List Nat
  | [], _ => []
  | x :: xs, vistos =>
    if x ∈ vistos then primerasApariciones xs vistos
    else x :: primerasApariciones xs (x :: vistos)

/-- The association list `valor ↦ direccion` assigning addresses
`direccionDe (base+1), direccionDe (base+2), …` to a list of values. -/
def entradasDesde (base : Nat) : List Nat → List (Nat × List Char)
  | [] => []
  | v :: vs => (v, direccionDe (base + 1)) :: entradasDesde (base + 1) vs

/-- The symbol-table rows for a list of values, addresses numbered from
`base + 1`. -/
def filasSimbolos (base : Nat) : List Nat → List EntradaSimbolo
  | [] => []
  | v :: vs => ⟨natChars v, direccionDe (base + 1)⟩ :: filasSimbolos (base + 1) vs

/-- The number of maximal runs of consecutive digits in a character
list. -/
def rachasDeDigitos : List Char → Nat
  | [] => 0
  | c :: resto =>
    if c.isDigit then 1 + rachasDeDigitos (resto.dropWhile Char.isDigit)
    else rachasDeDigitos resto
termination_by l => l.length
decreasing_by
  · exact Nat.lt_succ_of_le (List.dropWhile_sublist _).length_le
  · exact Nat.lt_succ_self _

/-- A character the lexer accepts: a digit, an operator or parenthesis,
or whitespace. -/
def caracterReconocido (c : Char) : Bool :=
  c.isDigit || (tiposOperador c).isSome || c.isWhitespace

/-! Decimal rendering: unfolding rule and injectivity. -/

theorem natCharsAux_congr :
    ∀ n f g, n < f → n < g → natCharsAux f n = natCharsAux g n := by
  intro n
  induction n using Nat.strong_induction_on with
  | _ n ih =>
    intro f g hf hg
    obtain ⟨f', rfl⟩ : ∃ f', f = f' + 1 := ⟨f - 1, by omega⟩
    obtain ⟨g', rfl⟩ : ∃ g', g = g' + 1 := ⟨g - 1, by omega⟩
    by_cases h10 : n < 10
    · simp [natCharsAux, h10]
    · have hdiv : n / 10 < n := Nat.div_lt_self (by omega) (by omega)
      simp only [natCharsAux, if_neg h10]
      rw [ih (n / 10) hdiv f' g' (by omega) (by omega)]

theorem natChars_eq (n : Nat) :
    natChars n =
      if n < 10 then [Nat.digitChar n]
      else natChars (n / 10) ++ [Nat.digitChar (n % 10)] := by
  unfold natChars
  by_cases h10 : n < 10
  · simp [natCharsAux, h10]
  · have hdiv : n / 10 < n := Nat.div_lt_self (by omega) (by omega)
    rw [natCharsAux_congr (n / 10) (n / 10 + 1) n (by omega) (by omega)]
    simp [natCharsAux, h10]

theorem natChars_ne_nil (n : Nat) : natChars n ≠ [] := by
  rw [natChars_eq]
  split
  · simp
  · simp

theorem digitChar_inj :
    ∀ a, a < 10 → ∀ b, b < 10 → Nat.digitChar a = Nat.digitChar b → a = b := by
  decide

theorem natChars_injective : ∀ a b, natChars a = natChars b → a = b := by
  intro a
  induction a using Nat.strong_induction_on with
  | _ a ih =>
    intro b h
    rw [natChars_eq a, natChars_eq b] at h
    by_cases ha : a < 10 <;> by_cases hb : b < 10
    · rw [if_pos ha, if_pos hb] at h
      exact digitChar_inj a ha b hb (List.cons.injEq .. ▸ h).1
    · rw [if_pos ha, if_neg hb] at h
      have hlen := congrArg List.length h
      simp [List.length_append] at hlen
      exact absurd hlen (natChars_ne_nil _)
    · rw [if_neg ha, if_pos hb] at h
      have hlen := congrArg List.length h
      simp [List.length_append] at hlen
      exact absurd hlen (natChars_ne_nil _)
    · rw [if_neg ha, if_neg hb] at h
      obtain ⟨h1, h2⟩ := List.append_inj' h (by simp)
      have hdiv : a / 10 < a := Nat.div_lt_self (by omega) (by omega)
      have e1 : a / 10 = b / 10 := ih (a / 10) hdiv (b / 10) h1
      have e2 : a % 10 = b % 10 :=
        digitChar_inj (a % 10) (Nat.mod_lt _ (by omega)) (b % 10) (Nat.mod_lt _ (by omega))
          (by simpa using h2)
      omega

/-! Semantic tables: closed form of the traversal. -/

theorem lookup_isSome_mem (l : List (Nat × List Char)) (v : Nat) :
    (l.lookup v).isSome ↔ v ∈ l.map Prod.fst := by
  simp [List.lookup_isSome_iff]

theorem visitar_eq_foldl (nodo : ASTNode) :
    ∀ st, visitar nodo st = (hojas nodo).foldl insertarValor st := by
  induction nodo with
  | NumberNode v => intro st; rfl
  | BinaryOpNode op izq der ihl ihr =>
    intro st
    simp [visitar, hojas, List.foldl_append, ihl, ihr]

theorem primerasApariciones_congr :
    ∀ (xs v₁ v₂ : List Nat), (∀ y, y ∈ v₁ ↔ y ∈ v₂) →
      primerasApariciones xs v₁ = primerasApariciones xs v₂ := by
  intro xs
  induction xs with
  | nil => intros; rfl
  | cons x xs ih =>
    intro v₁ v₂ h
    by_cases hx : x ∈ v₁
    · rw [primerasApariciones, primerasApariciones, if_pos hx, if_pos ((h x).mp hx)]
      exact ih _ _ h
    · rw [primerasApariciones, primerasApariciones, if_neg hx,
        if_neg (fun c => hx ((h x).mpr c))]
      rw [ih (x :: v₁) (x :: v₂) (by intro y; simp [h y])]

theorem foldl_insertar (xs : List Nat) :
    ∀ simb ord, ord = simb.map Prod.fst →
      xs.foldl insertarValor (simb, ord) =
        (simb ++ entradasDesde simb.length (primerasApariciones xs ord),
         ord ++ primerasApariciones xs ord) := by
  induction xs with
  | nil =>
    intro simb ord h
    simp [primerasApariciones, entradasDesde]
  | cons x xs ih =>
    intro simb ord h
    rw [List.foldl_cons]
    by_cases hx : (simb.lookup x).isSome
    · have hmem : x ∈ ord := by rw [h]; exact (lookup_isSome_mem simb x).mp hx
      rw [show insertarValor (simb, ord) x = (simb, ord) from by simp [insertarValor, hx]]
      rw [ih simb ord h, primerasApariciones, if_pos hmem]
    · have hmem : x ∉ ord := by
        intro c
        exact hx ((lookup_isSome_mem simb x).mpr (h ▸ c))
      have hins : insertarValor (simb, ord) x =
          (simb ++ [(x, direccionDe (simb.length + 1))], ord ++ [x]) := by
        simp [insertarValor, hx]
      rw [hins, ih (simb ++ [(x, direccionDe (simb.length + 1))]) (ord ++ [x]) (by simp [h])]
      rw [primerasApariciones, if_neg hmem]
      rw [primerasApariciones_congr xs (ord ++ [x]) (x :: ord) (by intro y; simp [or_comm])]
      rw [entradasDesde]
      simp [List.append_assoc]

theorem visitar_cerrado (nodo : ASTNode) :
    visitar nodo ([], []) =
      (entradasDesde 0 (primerasApariciones (hojas nodo) []),
       primerasApariciones (hojas nodo) []) := by
  rw [visitar_eq_foldl]
  simpa using foldl_insertar (hojas nodo) [] [] (by simp)

theorem primerasApariciones_not_mem :
    ∀ (xs vistos : List Nat) y, y ∈ primerasApariciones xs vistos → y ∉ vistos := by
  intro xs
  induction xs with
  | nil => intro vistos y hy; simp [primerasApariciones] at hy
  | cons x xs ih =>
    intro vistos y hy
    by_cases hx : x ∈ vistos
    · rw [primerasApariciones, if_pos hx] at hy
      exact ih vistos y hy
    · rw [primerasApariciones, if_neg hx] at hy
      rcases List.mem_cons.mp hy with rfl | hy'
      · exact hx
      · intro c
        exact ih (x :: vistos) y hy' (List.mem_cons_of_mem x c)

theorem primerasApariciones_nodup :
    ∀ (xs vistos : List Nat), (primerasApariciones xs vistos).Nodup := by
  intro xs
  induction xs with
  | nil => intro vistos; simp [primerasApariciones]
  | cons x xs ih =>
    intro vistos
    by_cases hx : x ∈ vistos
    · rw [primerasApariciones, if_pos hx]; exact ih vistos
    · rw [primerasApariciones, if_neg hx]
      refine List.nodup_cons.mpr ⟨?_, ih (x :: vistos)⟩
      intro c
      exact primerasApariciones_not_mem xs (x :: vistos) x c (List.mem_cons_self x vistos)

theorem mem_primerasApariciones :
    ∀ (xs vistos : List Nat) y, y ∈ xs → y ∈ vistos ∨ y ∈ primerasApariciones xs vistos := by
  intro xs
  induction xs with
  | nil => intro vistos y hy; simp at hy
  | cons x xs ih =>
    intro vistos y hy
    by_cases hx : x ∈ vistos
    · rw [primerasApariciones, if_pos hx]
      rcases List.mem_cons.mp hy with rfl | hy'
      · exact Or.inl hx
      · exact ih vistos y hy'
    · rw [primerasApariciones, if_neg hx]
      rcases List.mem_cons.mp hy with rfl | hy'
      · exact Or.inr (List.mem_cons_self _ _)
      · rcases ih (x :: vistos) y hy' with h | h
        · rcases List.mem_cons.mp h with rfl | h'
          · exact Or.inr (List.mem_cons_self _ _)
          · exact Or.inl h'
        · exact Or.inr (List.mem_cons_of_mem x h)

theorem direccionDe_injective : ∀ a b, direccionDe a = direccionDe b → a = b := by
  intro a b h
  exact natChars_injective a b (List.append_cancel_left h)

theorem lookup_entradasDesde :
    ∀ (L : List Nat) base i (h : i < L.length), L.Nodup →
      (entradasDesde base L).lookup (L.get ⟨i, h⟩) = some (direccionDe (base + i + 1)) := by
  intro L
  induction L with
  | nil => intro base i h; simp at h
  | cons v vs ih =>
    intro base i h hnd
    match i with
    | 0 => simp [entradasDesde, List.lookup]
    | i + 1 =>
      have hb : i < vs.length := by simpa using h
      have hne : vs.get ⟨i, hb⟩ ≠ v := by
        intro c
        exact (List.nodup_cons.mp hnd).1 (c ▸ List.get_mem vs i hb)
      have hget : (v :: vs).get ⟨i + 1, h⟩ = vs.get ⟨i, hb⟩ := rfl
      simp only [entradasDesde, List.lookup_cons, hget,
        show ((vs.get ⟨i, hb⟩ : Nat) == v) = false from by simpa using hne]
      rw [ih (base + 1) i hb (List.nodup_cons.mp hnd).2]
      rw [show base + 1 + i + 1 = base + (i + 1) + 1 from by omega]

theorem lookup_entradasDesde_isSome :
    ∀ (L : List Nat) base v, v ∈ L → ((entradasDesde base L).lookup v).isSome := by
  intro L
  induction L with
  | nil => intro base v hv; simp at hv
  | cons x vs ih =>
    intro base v hv
    rw [entradasDesde, List.lookup_cons]
    by_cases hvx : v = x
    · simp [hvx]
    · rw [show (v == x) = false from by simpa using hvx]
      rcases List.mem_cons.mp hv with rfl | hv'
      · exact absurd rfl hvx
      · exact ih (base + 1) v hv'

theorem map_lookup_filas :
    ∀ (L : List Nat) (full : List (Nat × List Char)) base,
      (∀ i (h : i < L.length), full.lookup (L.get ⟨i, h⟩) = some (direccionDe (base + i + 1))) →
      (L.map fun v => (⟨natChars v, (full.lookup v).getD []⟩ : EntradaSimbolo)) =
        filasSimbolos base L := by
  intro L
  induction L with
  | nil => intros; rfl
  | cons v vs ih =>
    intro full base h
    rw [List.map_cons, filasSimbolos]
    have h0 := h 0 (by simp)
    rw [show (v :: vs).get ⟨0, by simp⟩ = v from rfl] at h0
    congr 1
    · rw [h0]
      rfl
    · apply ih full (base + 1)
      intro i hi
      have := h (i + 1) (by simpa using Nat.succ_lt_succ hi)
      rw [show (v :: vs).get ⟨i + 1, by simpa using Nat.succ_lt_succ hi⟩ =
        vs.get ⟨i, hi⟩ from rfl] at this
      rw [this, show base + (i + 1) + 1 = base + 1 + i + 1 from by omega]

theorem construir_cerrado (nodo : ASTNode) :
    construir_tablas_semanticas nodo =
      (filasSimbolos 0 (primerasApariciones (hojas nodo) []),
       (primerasApariciones (hojas nodo) []).map fun v =>
         (⟨natChars v, "entero".toList⟩ : EntradaTipo),
       entradasDesde 0 (primerasApariciones (hojas nodo) [])) := by
  unfold construir_tablas_semanticas
  rw [visitar_cerrado]
  refine Prod.ext ?_ (Prod.ext ?_ ?_)
  · show ((primerasApariciones (hojas nodo) []).map fun valor =>
      (⟨natChars valor, (((entradasDesde 0 (primerasApariciones (hojas nodo) [])).lookup valor).getD [])⟩ : EntradaSimbolo)) = _
    apply map_lookup_filas
    intro i h
    exact lookup_entradasDesde _ 0 i h (primerasApariciones_nodup _ _)
  · rfl
  · rfl

theorem filasSimbolos_length :
    ∀ (L : List Nat) base, (filasSimbolos base L).length = L.length := by
  intro L
  induction L with
  | nil => intro base; rfl
  | cons v vs ih => intro base; simp [filasSimbolos, ih]

theorem filasSimbolos_get_direccion :
    ∀ (L : List Nat) base i (h : i < (filasSimbolos base L).length),
      ((filasSimbolos base L).get ⟨i, h⟩).direccion = direccionDe (base + i + 1) := by
  intro L
  induction L with
  | nil => intro base i h; simp [filasSimbolos] at h
  | cons v vs ih =>
    intro base i h
    match i with
    | 0 => rfl
    | i + 1 =>
      have hb : i < (filasSimbolos (base + 1) vs).length := by
        simp only [filasSimbolos, List.length_cons] at h
        omega
      rw [show (filasSimbolos base (v :: vs)).get ⟨i + 1, h⟩ =
        (filasSimbolos (base + 1) vs).get ⟨i, hb⟩ from rfl]
      rw [ih (base + 1) i hb]
      rw [show base + 1 + i + 1 = base + (i + 1) + 1 from by omega]

/-! Code generation: success, instruction count and temporary numbering. -/

theorem generarAux_isSome :
    ∀ (nodo : ASTNode) (direcciones : List (Nat × List Char)) (temporal : Nat),
      (∀ v ∈ hojas nodo, (direcciones.lookup v).isSome) →
      (generarAux direcciones nodo temporal).isSome := by
  intro nodo
  induction nodo with
  | NumberNode v =>
    intro dirs temporal h
    have := h v (by simp [hojas])
    obtain ⟨d, hd⟩ := Option.isSome_iff_exists.mp this
    simp [generarAux, hd]
  | BinaryOpNode op izq der ihl ihr =>
    intro dirs temporal h
    have hl := ihl dirs temporal (fun v hv => h v (by simp [hojas, hv]))
    obtain ⟨⟨insL, refL, t1⟩, hL⟩ := Option.isSome_iff_exists.mp hl
    have hr := ihr dirs t1 (fun v hv => h v (by simp [hojas, hv]))
    obtain ⟨⟨insR, refR, t2⟩, hR⟩ := Option.isSome_iff_exists.mp hr
    simp [generarAux, hL, hR]

theorem generarAux_destinos :
    ∀ (nodo : ASTNode) (direcciones : List (Nat × List Char)) (temporal : Nat)
      (ins : List (List Char)) (ref : List Char) (temporal' : Nat),
      generarAux direcciones nodo temporal = some (ins, ref, temporal') →
      temporal' = temporal + ins.length ∧ ins.length = numBinaryOps nodo ∧
      ∀ k (hk : k < ins.length), ∃ resto,
        ins[k] = 't' :: natChars (temporal + k) ++ (" = ".toList ++ resto) := by
  intro nodo
  induction nodo with
  | NumberNode v =>
    intro dirs temporal ins ref temporal' h
    rw [generarAux] at h
    match hd : dirs.lookup v with
    | some d =>
      rw [hd] at h
      simp only [Option.some.injEq, Prod.mk.injEq] at h
      obtain ⟨h1, h2, h3⟩ := h
      subst h3
      rw [← h1]
      refine ⟨by simp, rfl, ?_⟩
      intro k hk
      simp at hk
    | none =>
      rw [hd] at h
      simp at h
  | BinaryOpNode op izq der ihl ihr =>
    intro dirs temporal ins ref temporal' h
    rw [generarAux] at h
    match hL : generarAux dirs izq temporal with
    | none => rw [hL] at h; simp at h
    | some (insL, refL, t1) =>
      rw [hL] at h
      dsimp only at h
      match hR : generarAux dirs der t1 with
      | none => rw [hR] at h; simp at h
      | some (insR, refR, t2) =>
        rw [hR] at h
        dsimp only at h
        simp only [Option.some.injEq, Prod.mk.injEq] at h
        obtain ⟨hins, href, ht⟩ := h
        replace hins := hins.symm
        replace href := href.symm
        replace ht := ht.symm
        obtain ⟨e1, n1, d1⟩ := ihl dirs temporal insL refL t1 hL
        obtain ⟨e2, n2, d2⟩ := ihr dirs t1 insR refR t2 hR
        have hlen : ins.length = insL.length + insR.length + 1 := by
          subst hins
          simp only [List.length_append, List.length_cons, List.length_nil]
        refine ⟨by omega, by rw [hlen, n1, n2]; rfl, ?_⟩
        intro k hk
        subst hins
        rw [hlen] at hk
        by_cases hkL : k < insL.length
        · obtain ⟨resto, hr⟩ := d1 k hkL
          refine ⟨resto, ?_⟩
          rw [List.getElem_eq_iff,
            List.getElem?_append_left (by simp [List.length_append]; omega),
            List.getElem?_append_left hkL,
            List.getElem?_eq_getElem hkL, hr]
        · by_cases hkR : k - insL.length < insR.length
          · obtain ⟨resto, hr⟩ := d2 (k - insL.length) hkR
            refine ⟨resto, ?_⟩
            rw [List.getElem_eq_iff,
              List.getElem?_append_left (by simp [List.length_append]; omega),
              List.getElem?_append_right (le_of_not_lt hkL),
              List.getElem?_eq_getElem hkR, hr, e1,
              show temporal + insL.length + (k - insL.length) = temporal + k from by omega]
          · have ht2 : t2 = temporal + k := by omega
            refine ⟨refL ++ [' '] ++ op ++ [' '] ++ refR, ?_⟩
            rw [List.getElem_eq_iff,
              List.getElem?_append_right (by simp [List.length_append]; omega),
              List.length_append,
              show k - (insL.length + insR.length) = 0 from by omega,
              List.getElem?_cons_zero, ht2]
            simp [List.append_assoc]

theorem hojas_lookup_construir :
    ∀ (nodo : ASTNode) v, v ∈ hojas nodo →
      (((construir_tablas_semanticas nodo).2.2).lookup v).isSome := by
  intro nodo v hv
  rw [construir_cerrado]
  rcases mem_primerasApariciones (hojas nodo) [] v hv with h | h
  · simp at h
  · exact lookup_entradasDesde_isSome _ 0 v h

/-! Lexer: general lemmas. -/

theorem tiposOperador_whitespace (c : Char) (h : c.isWhitespace = true) :
    tiposOperador c = none := by
  simp only [Char.isWhitespace, Bool.or_eq_true, decide_eq_true_eq] at h
  rcases h with ((rfl | rfl) | rfl) | rfl <;> rfl


theorem tokenizeAux_digitos :
    ∀ (l : List Char) (posicion : Nat),
      (∀ c ∈ l, c.isDigit = true ∨ c.isWhitespace = true) →
      ∃ ts, tokenizeAux l posicion = .ok ts ∧ ts.length = rachasDeDigitos l ∧
        ∀ t ∈ ts, t.tipo = .NUMBER := by
  intro l posicion
  induction l, posicion using tokenizeAux.induct with
  | case1 pos =>
    intro h
    refine ⟨[], ?_, ?_, by simp⟩
    · rw [tokenizeAux]
    · rw [rachasDeDigitos]
      rfl
  | case2 c resto pos hdig valor e he ih =>
    intro h
    obtain ⟨ts, hts, _, _⟩ := ih (fun x hx => h x (List.mem_cons_of_mem c (List.dropWhile_subset _ hx)))
    rw [hts] at he
    exact absurd he (by simp)
  | case3 c resto pos hdig valor ts hts ih =>
    intro h
    obtain ⟨ts2, hts2, hlen, htipos⟩ := ih (fun x hx => h x (List.mem_cons_of_mem c (List.dropWhile_subset _ hx)))
    have hee : ts2 = ts := Except.ok.inj (hts2.symm.trans hts)
    subst hee
    refine ⟨⟨.NUMBER, c :: List.takeWhile Char.isDigit resto, pos⟩ :: ts2, ?_, ?_, ?_⟩
    · rw [tokenizeAux]
      simp only [if_pos hdig, hts2]
    · rw [rachasDeDigitos, if_pos hdig, List.length_cons, hlen]
      omega
    · intro t ht
      rcases List.mem_cons.mp ht with rfl | ht2
      · rfl
      · exact htipos t ht2
  | case4 c resto pos hdig tipo htipo e he ih =>
    intro h
    exfalso
    rcases h c (List.mem_cons_self c resto) with hd | hw
    · exact hdig hd
    · rw [tiposOperador_whitespace c hw] at htipo
      exact Option.noConfusion htipo
  | case5 c resto pos hdig tipo htipo ts hts ih =>
    intro h
    exfalso
    rcases h c (List.mem_cons_self c resto) with hd | hw
    · exact hdig hd
    · rw [tiposOperador_whitespace c hw] at htipo
      exact Option.noConfusion htipo
  | case6 c resto pos hdig htipo hws ih =>
    intro h
    obtain ⟨ts, hts, hlen, htipos⟩ := ih (fun x hx => h x (List.mem_cons_of_mem c hx))
    refine ⟨ts, ?_, ?_, htipos⟩
    · rw [tokenizeAux, if_neg hdig, htipo, if_pos hws]
      exact hts
    · rw [rachasDeDigitos, if_neg hdig]
      exact hlen
  | case7 c resto pos hdig htipo hws =>
    intro h
    exfalso
    rcases h c (List.mem_cons_self c resto) with hd | hw
    · exact hdig hd
    · exact hws hw

theorem takeWhile_append_stop (p : Char → Bool) (c : Char) (hc : ¬p c = true) :
    ∀ (xs ys : List Char), (xs ++ c :: ys).takeWhile p = xs.takeWhile p := by
  intro xs ys
  induction xs with
  | nil => simp [List.takeWhile_cons, Bool.eq_false_iff.mpr hc]
  | cons x xs ih =>
    cases hx : p x <;> simp [List.takeWhile_cons, hx, ih]

theorem dropWhile_append_stop (p : Char → Bool) (c : Char) (hc : ¬p c = true) :
    ∀ (xs ys : List Char), (xs ++ c :: ys).dropWhile p = xs.dropWhile p ++ c :: ys := by
  intro xs ys
  induction xs with
  | nil => simp [List.dropWhile_cons, Bool.eq_false_iff.mpr hc]
  | cons x xs ih =>
    cases hx : p x <;> simp [List.dropWhile_cons, hx, ih]

theorem caracterReconocido_false (c : Char) (hc : caracterReconocido c = false) :
    c.isDigit = false ∧ tiposOperador c = none ∧ c.isWhitespace = false := by
  unfold caracterReconocido at hc
  simp only [Bool.or_eq_false_iff] at hc
  exact ⟨hc.1.1, Option.not_isSome_iff_eq_none.mp (by simp [hc.1.2]), hc.2⟩

theorem tokenizeAux_primer_error :
    ∀ (n : Nat) (pre : List Char), pre.length = n →
      ∀ (c : Char) (post : List Char) (posicion : Nat),
      (∀ x ∈ pre, caracterReconocido x = true) →
      caracterReconocido c = false →
      tokenizeAux (pre ++ c :: post) posicion = .error ⟨posicion + pre.length, c⟩ := by
  intro n
  induction n using Nat.strong_induction_on with
  | _ n ih =>
    intro pre hn c post posicion hpre hc
    obtain ⟨hcd, hcop, hcw⟩ := caracterReconocido_false c hc
    match pre, hn with
    | [], hn =>
      rw [List.nil_append, tokenizeAux, if_neg (by simp [hcd]), hcop,
        if_neg (by simp [hcw])]
      simp
    | a :: pre', hn =>
      by_cases hd : a.isDigit = true
      · have htw := takeWhile_append_stop Char.isDigit c (by simp [hcd]) pre' post
        have hdw := dropWhile_append_stop Char.isDigit c (by simp [hcd]) pre' post
        have hsum : (pre'.takeWhile Char.isDigit).length +
            (pre'.dropWhile Char.isDigit).length = pre'.length := by
          rw [← List.length_append, List.takeWhile_append_dropWhile]
        have hrec := ih ((pre'.dropWhile Char.isDigit).length)
          (by simp at hn; have := (List.dropWhile_sublist (l := pre') Char.isDigit).length_le; omega)
          (pre'.dropWhile Char.isDigit) rfl c post
          (posicion + (a :: (pre' ++ c :: post).takeWhile Char.isDigit).length)
          (fun x hx => hpre x (List.mem_cons_of_mem a (List.dropWhile_subset _ hx)))
          hc
        rw [List.cons_append, tokenizeAux, if_pos hd]
        simp only [htw, hdw]
        simp only [htw] at hrec
        rw [hrec]
        dsimp only
        simp only [List.length_cons]
        congr 2
        omega
      · rcases (by
            have := hpre a (List.mem_cons_self a pre')
            unfold caracterReconocido at this
            simp only [Bool.or_eq_true] at this
            rcases this with (h1 | h2) | h3
            · exact absurd h1 hd
            · exact Or.inl (Option.isSome_iff_exists.mp h2)
            · exact Or.inr h3 :
            (∃ tipo, tiposOperador a = some tipo) ∨ a.isWhitespace = true) with
          ⟨tipo, hop⟩ | hws
        · have hrec := ih pre'.length (by simp at hn; omega) pre' rfl c post (posicion + 1)
            (fun x hx => hpre x (List.mem_cons_of_mem a hx)) hc
          rw [List.cons_append, tokenizeAux, if_neg hd, hop, hrec]
          dsimp only
          simp only [List.length_cons]
          congr 2
          omega
        · have hrec := ih pre'.length (by simp at hn; omega) pre' rfl c post (posicion + 1)
            (fun x hx => hpre x (List.mem_cons_of_mem a hx)) hc
          rw [List.cons_append, tokenizeAux, if_neg hd,
            tiposOperador_whitespace a hws, if_pos hws, hrec]
          simp only [List.length_cons]
          congr 2
          omega

theorem tokenizeAux_posiciones :
    ∀ (l : List Char) (posicion : Nat) (ts : List Token),
      tokenizeAux l posicion = .ok ts →
      (∀ t ∈ ts, posicion ≤ t.posicion ∧ t.valor ≠ [] ∧
        (l.drop (t.posicion - posicion)).take t.valor.length = t.valor) ∧
      List.Pairwise (fun a b => a.posicion + a.valor.length ≤ b.posicion) ts := by
  intro l posicion
  induction l, posicion using tokenizeAux.induct with
  | case1 pos =>
    intro ts heq
    rw [tokenizeAux] at heq
    obtain rfl : ([] : List Token) = ts := Except.ok.inj heq
    simp
  | case2 c resto pos hdig valor e he ih =>
    intro ts heq
    rw [tokenizeAux, if_pos hdig] at heq
    simp only [he] at heq
    exact absurd heq (by simp)
  | case3 c resto pos hdig valor ts0 hts ih =>
    intro ts heq
    rw [tokenizeAux, if_pos hdig] at heq
    simp only [hts] at heq
    obtain rfl :
        ({ tipo := .NUMBER, valor := c :: resto.takeWhile Char.isDigit, posicion := pos } :
          Token) :: ts0 = ts := Except.ok.inj heq
    obtain ⟨hmem, hpair⟩ := ih ts0 hts
    have hsplit : c :: resto = (c :: resto.takeWhile Char.isDigit) ++ resto.dropWhile Char.isDigit := by
      rw [List.cons_append, List.takeWhile_append_dropWhile]
    constructor
    · intro t ht
      rcases List.mem_cons.mp ht with rfl | ht'
      · refine ⟨Nat.le_refl _, by simp, ?_⟩
        show ((c :: resto).drop (pos - pos)).take (c :: resto.takeWhile Char.isDigit).length =
          c :: resto.takeWhile Char.isDigit
        simp only [Nat.sub_self, List.drop_zero]
        rw [hsplit]
        exact List.take_left' rfl
      · obtain ⟨h1, h2, h3⟩ := hmem t ht'
        replace h1 : pos + (c :: resto.takeWhile Char.isDigit).length ≤ t.posicion := h1
        replace h3 : ((resto.dropWhile Char.isDigit).drop
            (t.posicion - (pos + (c :: resto.takeWhile Char.isDigit).length))).take
              t.valor.length = t.valor := h3
        simp only [List.length_cons] at h1
        refine ⟨by omega, h2, ?_⟩
        rw [hsplit]
        have hk : t.posicion - pos =
            (c :: resto.takeWhile Char.isDigit).length +
              (t.posicion - (pos + (c :: resto.takeWhile Char.isDigit).length)) := by
          simp only [List.length_cons]
          omega
        rw [hk, ← List.drop_drop, List.drop_left]
        exact h3
    · refine List.pairwise_cons.mpr ⟨?_, hpair⟩
      intro t ht
      have := (hmem t ht).1
      simpa using this
  | case4 c resto pos hdig tipo htipo e he ih =>
    intro ts heq
    rw [tokenizeAux, if_neg hdig, htipo] at heq
    simp only [he] at heq
    exact absurd heq (by simp)
  | case5 c resto pos hdig tipo htipo ts0 hts ih =>
    intro ts heq
    rw [tokenizeAux, if_neg hdig, htipo] at heq
    simp only [hts] at heq
    obtain rfl :
        ({ tipo := tipo, valor := [c], posicion := pos } : Token) :: ts0 = ts :=
      Except.ok.inj heq
    obtain ⟨hmem, hpair⟩ := ih ts0 hts
    constructor
    · intro t ht
      rcases List.mem_cons.mp ht with rfl | ht'
      · refine ⟨Nat.le_refl _, by simp, ?_⟩
        simp
      · obtain ⟨h1, h2, h3⟩ := hmem t ht'
        refine ⟨by omega, h2, ?_⟩
        have hk : t.posicion - pos = (t.posicion - (pos + 1)) + 1 := by omega
        rw [hk, List.drop_succ_cons]
        exact h3
    · refine List.pairwise_cons.mpr ⟨?_, hpair⟩
      intro t ht
      have := (hmem t ht).1
      simpa using this
  | case6 c resto pos hdig htipo hws ih =>
    intro ts heq
    rw [tokenizeAux, if_neg hdig, htipo, if_pos hws] at heq
    obtain ⟨hmem, hpair⟩ := ih ts heq
    refine ⟨?_, hpair⟩
    intro t ht
    obtain ⟨h1, h2, h3⟩ := hmem t ht
    refine ⟨by omega, h2, ?_⟩
    have hk : t.posicion - pos = (t.posicion - (pos + 1)) + 1 := by omega
    rw [hk, List.drop_succ_cons]
    exact h3
  | case7 c resto pos hdig htipo hws =>
    intro ts heq
    rw [tokenizeAux, if_neg hdig, htipo, if_neg hws] at heq
    exact absurd heq (by simp)

/-! Concrete tokenizations used by the claim theorems. -/

theorem tokenize_dos_mas_tres_por_cuatro :
    tokenize "2+3*4".toList = .ok
      [⟨.NUMBER, ['2'], 0⟩, ⟨.PLUS, ['+'], 1⟩, ⟨.NUMBER, ['3'], 2⟩,
       ⟨.MUL, ['*'], 3⟩, ⟨.NUMBER, ['4'], 4⟩] := by
  simp [tokenize, tokenizeAux, tiposOperador]

theorem tokenize_ocho_menos_tres_menos_dos :
    tokenize "8-3-2".toList = .ok
      [⟨.NUMBER, ['8'], 0⟩, ⟨.MINUS, ['-'], 1⟩, ⟨.NUMBER, ['3'], 2⟩,
       ⟨.MINUS, ['-'], 3⟩, ⟨.NUMBER, ['2'], 4⟩] := by
  simp [tokenize, tokenizeAux, tiposOperador]

theorem tokenize_paren_dos_mas_tres :
    tokenize "(2+3".toList = .ok
      [⟨.LPAREN, ['('], 0⟩, ⟨.NUMBER, ['2'], 1⟩, ⟨.PLUS, ['+'], 2⟩,
       ⟨.NUMBER, ['3'], 3⟩] := by
  simp [tokenize, tokenizeAux, tiposOperador]

theorem tokenize_paren_dos_esp_tres :
    tokenize "(2 3".toList = .ok
      [⟨.LPAREN, ['('], 0⟩, ⟨.NUMBER, ['2'], 1⟩, ⟨.NUMBER, ['3'], 3⟩] := by
  simp [tokenize, tokenizeAux, tiposOperador]

/-- C1: code generation emits exactly one instruction per `BinaryOpNode`
and none for a `NumberNode`: on the address map built by
`construir_tablas_semanticas` it always succeeds with exactly
`numBinaryOps` instructions, and on a single leaf it emits no instruction
and returns the leaf's table address. -/
theorem codigo_una_instruccion_por_operador (nodo : ASTNode) :
    ∃ ins ref,
      generar_codigo_tres_direcciones nodo (construir_tablas_semanticas nodo).2.2 =
        some (ins, ref) ∧
      ins.length = numBinaryOps nodo ∧
      ∀ valor, nodo = .NumberNode valor →
        ins = [] ∧ some ref = ((construir_tablas_semanticas nodo).2.2).lookup valor := by
  have hsome := generarAux_isSome nodo (construir_tablas_semanticas nodo).2.2 1
    (fun v hv => hojas_lookup_construir nodo v hv)
  obtain ⟨⟨ins, ref, temporal'⟩, hgen⟩ := Option.isSome_iff_exists.mp hsome
  obtain ⟨-, hcount, -⟩ := generarAux_destinos nodo _ 1 ins ref temporal' hgen
  refine ⟨ins, ref, ?_, hcount, ?_⟩
  · unfold generar_codigo_tres_direcciones
    rw [hgen]
    rfl
  · intro valor hval
    subst hval
    rw [generarAux] at hgen
    match hd : ((construir_tablas_semanticas (.NumberNode valor)).2.2).lookup valor with
    | some d =>
      rw [hd] at hgen
      simp only [Option.some.injEq, Prod.mk.injEq] at hgen
      exact ⟨hgen.1.symm, by rw [hgen.2.1]⟩
    | none =>
      rw [hd] at hgen
      simp at hgen

/-- Witness for C1 at the single-leaf AST `NumberNode 7`. -/
theorem codigo_una_instruccion_por_operador_testigo :
    ∃ ins ref,
      generar_codigo_tres_direcciones (.NumberNode 7)
        (construir_tablas_semanticas (.NumberNode 7)).2.2 = some (ins, ref) ∧
      ins = [] ∧
      some ref = ((construir_tablas_semanticas (.NumberNode 7)).2.2).lookup 7 := by
  obtain ⟨ins, ref, h1, h2, h3⟩ := codigo_una_instruccion_por_operador (.NumberNode 7)
  obtain ⟨h4, h5⟩ := h3 7 rfl
  exact ⟨ins, ref, h1, h4, h5⟩

/-- C2: the semantic tables assign each distinct literal exactly one
address `dir_1, dir_2, …` in order of first occurrence over the
left-to-right leaf sequence; repeated values are deduplicated to a single
row per table, and distinct rows carry distinct addresses. -/
theorem tablas_direcciones_primeras_apariciones (nodo : ASTNode) :
    construir_tablas_semanticas nodo =
      (filasSimbolos 0 (primerasApariciones (hojas nodo) []),
       (primerasApariciones (hojas nodo) []).map fun v =>
         (⟨natChars v, "entero".toList⟩ : EntradaTipo),
       entradasDesde 0 (primerasApariciones (hojas nodo) [])) ∧
    (primerasApariciones (hojas nodo) []).Nodup ∧
    ∀ i j (hi : i < (construir_tablas_semanticas nodo).1.length)
      (hj : j < (construir_tablas_semanticas nodo).1.length), i ≠ j →
      ((construir_tablas_semanticas nodo).1.get ⟨i, hi⟩).direccion ≠
        ((construir_tablas_semanticas nodo).1.get ⟨j, hj⟩).direccion := by
  refine ⟨construir_cerrado nodo, primerasApariciones_nodup _ _, ?_⟩
  have e1 : (construir_tablas_semanticas nodo).1 =
      filasSimbolos 0 (primerasApariciones (hojas nodo) []) := by
    rw [construir_cerrado nodo]
  intro i j hi hj hij
  rw [List.get_of_eq e1 ⟨i, hi⟩, List.get_of_eq e1 ⟨j, hj⟩]
  rw [filasSimbolos_get_direccion _ 0 i (e1 ▸ hi), filasSimbolos_get_direccion _ 0 j (e1 ▸ hj)]
  intro hcontra
  have := direccionDe_injective _ _ hcontra
  omega

/-- Witness for C2 on the AST of `2+3*2`: the repeated literal 2 gets one
row, and the two rows carry distinct addresses. -/
theorem tablas_direcciones_primeras_apariciones_testigo :
    construir_tablas_semanticas
        (.BinaryOpNode ['+'] (.NumberNode 2)
          (.BinaryOpNode ['*'] (.NumberNode 3) (.NumberNode 2))) =
      (filasSimbolos 0 [2, 3],
       [(⟨['2'], "entero".toList⟩ : EntradaTipo), ⟨['3'], "entero".toList⟩],
       entradasDesde 0 [2, 3]) ∧
    ([2, 3] : List Nat).Nodup ∧
    ((construir_tablas_semanticas
        (.BinaryOpNode ['+'] (.NumberNode 2)
          (.BinaryOpNode ['*'] (.NumberNode 3) (.NumberNode 2)))).1.get
      ⟨0, by decide⟩).direccion ≠
    ((construir_tablas_semanticas
        (.BinaryOpNode ['+'] (.NumberNode 2)
          (.BinaryOpNode ['*'] (.NumberNode 3) (.NumberNode 2)))).1.get
      ⟨1, by decide⟩).direccion := by
  obtain ⟨h1, h2, h3⟩ := tablas_direcciones_primeras_apariciones
    (.BinaryOpNode ['+'] (.NumberNode 2)
      (.BinaryOpNode ['*'] (.NumberNode 3) (.NumberNode 2)))
  refine ⟨?_, by decide, h3 0 1 (by decide) (by decide) (by decide)⟩
  have : primerasApariciones
      (hojas (.BinaryOpNode ['+'] (.NumberNode 2)
        (.BinaryOpNode ['*'] (.NumberNode 3) (.NumberNode 2)))) [] = [2, 3] := by decide
  rw [this] at h1
  simpa using h1

/-- C3: `compilar "2+3*4"` succeeds with addresses 2↦dir_1, 3↦dir_2,
4↦dir_3, instructions `t1 = dir_2 * dir_3` then `t2 = dir_1 + t1`, and
final reference `t2`: multiplication binds tighter than addition. -/
theorem compilar_precedencia_mul :
    compilar "2+3*4".toList = .ok
      ⟨[⟨.NUMBER, ['2'], 0⟩, ⟨.PLUS, ['+'], 1⟩, ⟨.NUMBER, ['3'], 2⟩,
        ⟨.MUL, ['*'], 3⟩, ⟨.NUMBER, ['4'], 4⟩],
       .BinaryOpNode ['+'] (.NumberNode 2)
         (.BinaryOpNode ['*'] (.NumberNode 3) (.NumberNode 4)),
       [⟨"2".toList, "dir_1".toList⟩, ⟨"3".toList, "dir_2".toList⟩,
        ⟨"4".toList, "dir_3".toList⟩],
       [⟨"2".toList, "entero".toList⟩, ⟨"3".toList, "entero".toList⟩,
        ⟨"4".toList, "entero".toList⟩],
       ["t1 = dir_2 * dir_3".toList, "t2 = dir_1 + t1".toList],
       "t2".toList⟩ := by
  unfold compilar
  rw [tokenize_dos_mas_tres_por_cuatro]
  rfl

/-- C4: `compilar "8-3-2"` parses left-associatively, with AST
`(8-3)-2`, instructions `t1 = dir_1 - dir_2` then `t2 = t1 - dir_3`, and
final reference `t2`. -/
theorem compilar_asociatividad_izquierda :
    compilar "8-3-2".toList = .ok
      ⟨[⟨.NUMBER, ['8'], 0⟩, ⟨.MINUS, ['-'], 1⟩, ⟨.NUMBER, ['3'], 2⟩,
        ⟨.MINUS, ['-'], 3⟩, ⟨.NUMBER, ['2'], 4⟩],
       .BinaryOpNode ['-']
         (.BinaryOpNode ['-'] (.NumberNode 8) (.NumberNode 3))
         (.NumberNode 2),
       [⟨"8".toList, "dir_1".toList⟩, ⟨"3".toList, "dir_2".toList⟩,
        ⟨"2".toList, "dir_3".toList⟩],
       [⟨"8".toList, "entero".toList⟩, ⟨"3".toList, "entero".toList⟩,
        ⟨"2".toList, "entero".toList⟩],
       ["t1 = dir_1 - dir_2".toList, "t2 = t1 - dir_3".toList],
       "t2".toList⟩ := by
  unfold compilar
  rw [tokenize_ocho_menos_tres_menos_dos]
  rfl

/-- C8: the empty input tokenizes to no tokens, and parsing the empty
token sequence fails with `La expresión está vacía` carrying no
position. -/
theorem expresion_vacia :
    tokenize "".toList = .ok [] ∧
    compilar "".toList =
      .error (.sintactico (.err "La expresión está vacía" none)) := by
  have htok : tokenize "".toList = .ok [] := by
    simp [tokenize, tokenizeAux]
  refine ⟨htok, ?_⟩
  unfold compilar
  rw [htok]
  rfl

/-- Counterexample to C5 as stated: `"1 2"` consists only of digits and
whitespace, yet tokenizing yields two NUMBER tokens, not one (whitespace
separates digit runs; it does not merge them). -/
theorem un_token_por_entrada_contraejemplo :
    ("1 2".toList.all fun c => c.isDigit || c.isWhitespace) = true ∧
    tokenize "1 2".toList = .ok [⟨.NUMBER, ['1'], 0⟩, ⟨.NUMBER, ['2'], 2⟩] ∧
    ([(⟨.NUMBER, ['1'], 0⟩ : Token), ⟨.NUMBER, ['2'], 2⟩]).length = 2 := by
  refine ⟨by decide, ?_, rfl⟩
  simp [tokenize, tokenizeAux, tiposOperador]

/-- C5 (amended): on input consisting only of digits and whitespace,
tokenizing never fails, every produced token is a NUMBER token, and
exactly one token is produced per maximal run of consecutive digits. -/
theorem solo_digitos_un_token_por_racha (l : List Char)
    (h : ∀ c ∈ l, c.isDigit = true ∨ c.isWhitespace = true) :
    ∃ ts, tokenize l = .ok ts ∧ ts.length = rachasDeDigitos l ∧
      ∀ t ∈ ts, t.tipo = .NUMBER :=
  tokenizeAux_digitos l 0 h

/-- Witness for the amended C5 at `"12 3"`, which has two digit runs. -/
theorem solo_digitos_un_token_por_racha_testigo :
    ∃ ts, tokenize "12 3".toList = .ok ts ∧
      ts.length = rachasDeDigitos "12 3".toList ∧
      ∀ t ∈ ts, t.tipo = .NUMBER :=
  solo_digitos_un_token_por_racha "12 3".toList (by decide)

/-- C7: on the first character that is not a digit, an operator or
whitespace, the lexer fails with that character and its 0-based position,
and `compilar "2@3"` fails with a lexical error at position 1 on `@`. -/
theorem error_lexico_primer_caracter :
    (∀ (pre : List Char) (c : Char) (post : List Char),
      (∀ x ∈ pre, caracterReconocido x = true) →
      caracterReconocido c = false →
      tokenize (pre ++ c :: post) = .error ⟨pre.length, c⟩) ∧
    compilar "2@3".toList = .error (.lexico ⟨1, '@'⟩) := by
  have hgen : ∀ (pre : List Char) (c : Char) (post : List Char),
      (∀ x ∈ pre, caracterReconocido x = true) →
      caracterReconocido c = false →
      tokenize (pre ++ c :: post) = .error ⟨pre.length, c⟩ := by
    intro pre c post hpre hc
    have := tokenizeAux_primer_error pre.length pre rfl c post 0 hpre hc
    simpa [tokenize] using this
  refine ⟨hgen, ?_⟩
  have h2 : tokenize (['2'] ++ '@' :: ['3']) = .error ⟨1, '@'⟩ :=
    hgen ['2'] '@' ['3'] (by decide) (by decide)
  unfold compilar
  rw [show tokenize "2@3".toList = .error ⟨1, '@'⟩ from h2]

/-- Witness for C7's general part at `"2@3"` = `['2'] ++ '@' :: ['3']`. -/
theorem error_lexico_primer_caracter_testigo :
    tokenize "2@3".toList = .error ⟨1, '@'⟩ :=
  error_lexico_primer_caracter.1 ['2'] '@' ['3'] (by decide) (by decide)

/-- C9: compilation is deterministic (the embedding is a pure function of
the input), and no counter state leaks between calls: every call to the
code generator numbers its instructions `t1, t2, …` from 1 (the k-th
emitted instruction's destination is `t(k+1)`), and every call to the
table builder numbers its addresses `dir_1, dir_2, …` from 1 (the i-th
symbol row's address is `direccionDe (i+1)`). -/
theorem compilar_determinista_sin_estado :
    (∀ expresion : List Char, compilar expresion = compilar expresion) ∧
    (∀ (nodo : ASTNode) (direcciones : List (Nat × List Char)) ins ref,
      generar_codigo_tres_direcciones nodo direcciones = some (ins, ref) →
      ∀ k (hk : k < ins.length), ∃ resto,
        ins[k] = 't' :: natChars (k + 1) ++ (" = ".toList ++ resto)) ∧
    (∀ (nodo : ASTNode) i (hi : i < (construir_tablas_semanticas nodo).1.length),
      ((construir_tablas_semanticas nodo).1.get ⟨i, hi⟩).direccion =
        direccionDe (i + 1)) := by
  refine ⟨fun _ => rfl, ?_, ?_⟩
  · intro nodo dirs ins ref hgen k hk
    unfold generar_codigo_tres_direcciones at hgen
    match hg : generarAux dirs nodo 1 with
    | none => rw [hg] at hgen; simp at hgen
    | some (ins0, ref0, t') =>
      rw [hg] at hgen
      simp only [Option.map_some', Option.some.injEq, Prod.mk.injEq] at hgen
      obtain ⟨rfl, rfl⟩ := hgen
      obtain ⟨-, -, hdest⟩ := generarAux_destinos nodo dirs 1 ins0 ref0 t' hg
      have := hdest k hk
      rw [show 1 + k = k + 1 from by omega] at this
      exact this
  · intro nodo i hi
    have e1 : (construir_tablas_semanticas nodo).1 =
        filasSimbolos 0 (primerasApariciones (hojas nodo) []) := by
      rw [construir_cerrado nodo]
    rw [List.get_of_eq e1 ⟨i, hi⟩]
    rw [filasSimbolos_get_direccion _ 0 i (e1 ▸ hi)]
    rw [show 0 + i + 1 = i + 1 from by omega]

/-- Witness for C9 at the AST of `1+2` with its own tables: the single
instruction's destination is `t1`. -/
theorem compilar_determinista_sin_estado_testigo :
    ∃ resto, "t1 = dir_1 + dir_2".toList =
      't' :: natChars (0 + 1) ++ (" = ".toList ++ resto) := by
  have hgen : generar_codigo_tres_direcciones
      (.BinaryOpNode ['+'] (.NumberNode 1) (.NumberNode 2))
      [(1, "dir_1".toList), (2, "dir_2".toList)] =
      some (["t1 = dir_1 + dir_2".toList], "t1".toList) := by rfl
  have h := compilar_determinista_sin_estado.2.1
    (.BinaryOpNode ['+'] (.NumberNode 1) (.NumberNode 2))
    [(1, "dir_1".toList), (2, "dir_2".toList)]
    ["t1 = dir_1 + dir_2".toList] "t1".toList hgen 0 (by simp)
  simpa using h

/-- C10: whenever tokenization succeeds, token positions are strictly
increasing and each token's text is the substring of the input starting
at its recorded position. -/
theorem tokens_posiciones_texto (expresion : List Char) (ts : List Token)
    (h : tokenize expresion = .ok ts) :
    List.Pairwise (fun a b => a.posicion < b.posicion) ts ∧
    ∀ t ∈ ts, (expresion.drop t.posicion).take t.valor.length = t.valor := by
  obtain ⟨hmem, hpair⟩ := tokenizeAux_posiciones expresion 0 ts h
  constructor
  · refine hpair.imp_of_mem ?_
    intro a b ha hb hab
    have hne := (hmem a ha).2.1
    have hlen : 0 < a.valor.length := List.length_pos.mpr hne
    omega
  · intro t ht
    have := (hmem t ht).2.2
    simpa using this

/-- Witness for C10 at `"12+(3)"`. -/
theorem tokens_posiciones_texto_testigo :
    List.Pairwise (fun a b => a.posicion < b.posicion)
      [(⟨.NUMBER, ['1', '2'], 0⟩ : Token), ⟨.PLUS, ['+'], 2⟩,
       ⟨.LPAREN, ['('], 3⟩, ⟨.NUMBER, ['3'], 4⟩, ⟨.RPAREN, [')'], 5⟩] ∧
    ∀ t ∈ [(⟨.NUMBER, ['1', '2'], 0⟩ : Token), ⟨.PLUS, ['+'], 2⟩,
       ⟨.LPAREN, ['('], 3⟩, ⟨.NUMBER, ['3'], 4⟩, ⟨.RPAREN, [')'], 5⟩],
      ("12+(3)".toList.drop t.posicion).take t.valor.length = t.valor := by
  have h : tokenize "12+(3)".toList = .ok
      [⟨.NUMBER, ['1', '2'], 0⟩, ⟨.PLUS, ['+'], 2⟩, ⟨.LPAREN, ['('], 3⟩,
       ⟨.NUMBER, ['3'], 4⟩, ⟨.RPAREN, [')'], 5⟩] := by
    simp [tokenize, tokenizeAux, tiposOperador]
  exact tokens_posiciones_texto "12+(3)".toList _ h

theorem parse_factor_falta_cierre :
    ∀ (combustible : Nat) (tokens : List Token) (indice : Nat) (t : Token)
      (nodo : ASTNode) (indice' : Nat),
      tokens[indice]? = some t → t.tipo = .LPAREN →
      parse_expresion combustible tokens (indice + 1) = .ok (nodo, indice') →
      (∀ t', tokens[indice']? = some t' → t'.tipo ≠ .RPAREN →
        parse_factor (combustible + 1) tokens indice =
          .error (.err "Se esperaba ')'" (some t'.posicion))) ∧
      (tokens[indice']? = none →
        ∀ tprev, tokens[indice' - 1]? = some tprev →
        parse_factor (combustible + 1) tokens indice =
          .error (.err "Se esperaba ')'" (some (tprev.posicion + 1)))) := by
  intro f tokens indice t nodo i' hix hlp hexp
  constructor
  · intro t' hix' hnrp
    rw [parse_factor, hix]
    dsimp only
    rw [hlp]
    rw [if_neg (by decide), if_pos rfl, hexp]
    dsimp only
    rw [hix']
    dsimp only
    rw [if_neg hnrp]
  · intro hnone tprev hprev
    rw [parse_factor, hix]
    dsimp only
    rw [hlp]
    rw [if_neg (by decide), if_pos rfl, hexp]
    dsimp only
    rw [hnone]
    dsimp only
    rw [hprev]

/-- C6: on a missing `)`: if a token remains it is blamed at its own
position, and at end of input the synthetic position is one past the last
consumed token's position; in particular `compilar "(2+3"` fails with
`Se esperaba ')'` at position 4 and `compilar "(2 3"` at position 3. -/
theorem parentesis_sin_cerrar_posiciones :
    (∀ (combustible : Nat) (tokens : List Token) (indice : Nat) (t : Token)
      (nodo : ASTNode) (indice' : Nat),
      tokens[indice]? = some t → t.tipo = .LPAREN →
      parse_expresion combustible tokens (indice + 1) = .ok (nodo, indice') →
      (∀ t', tokens[indice']? = some t' → t'.tipo ≠ .RPAREN →
        parse_factor (combustible + 1) tokens indice =
          .error (.err "Se esperaba ')'" (some t'.posicion))) ∧
      (tokens[indice']? = none →
        ∀ tprev, tokens[indice' - 1]? = some tprev →
        parse_factor (combustible + 1) tokens indice =
          .error (.err "Se esperaba ')'" (some (tprev.posicion + 1))))) ∧
    compilar "(2+3".toList =
      .error (.sintactico (.err "Se esperaba ')'" (some 4))) ∧
    compilar "(2 3".toList =
      .error (.sintactico (.err "Se esperaba ')'" (some 3))) := by
  refine ⟨parse_factor_falta_cierre, ?_, ?_⟩
  · unfold compilar
    rw [tokenize_paren_dos_mas_tres]
    rfl
  · unfold compilar
    rw [tokenize_paren_dos_esp_tres]
    rfl

/-- Witness for C6's general part on the tokens of `"(2+3"`: the inner
expression ends with the input exhausted at index 4, the last consumed
token is `3` at position 3, and the error position is 4. -/
theorem parentesis_sin_cerrar_posiciones_testigo :
    parse_factor 19
      [⟨.LPAREN, ['('], 0⟩, ⟨.NUMBER, ['2'], 1⟩, ⟨.PLUS, ['+'], 2⟩,
       ⟨.NUMBER, ['3'], 3⟩] 0 =
      .error (.err "Se esperaba ')'" (some 4)) := by
  have h := (parentesis_sin_cerrar_posiciones.1 18
    [⟨.LPAREN, ['('], 0⟩, ⟨.NUMBER, ['2'], 1⟩, ⟨.PLUS, ['+'], 2⟩,
     ⟨.NUMBER, ['3'], 3⟩] 0 ⟨.LPAREN, ['('], 0⟩
    (.BinaryOpNode ['+'] (.NumberNode 2) (.NumberNode 3)) 4
    (by rfl) rfl (by rfl)).2 (by rfl) ⟨.NUMBER, ['3'], 3⟩ (by rfl)
  exact h
